import Mathlib

set_option maxRecDepth 40000

/-!
Shallow embedding of the http2socks adapter (src/main.rs).

The source decodes the inbound buffer with lossy UTF-8 and then works on the
resulting string, while the request-line splice operates on the raw bytes.
All inputs the adapter cares about are ASCII, where the two views coincide, so
buffers are modelled as lists of characters.  Rust standard-library routines
used by the source (str::split, str::split_whitespace, str::trim,
str::to_lowercase restricted to ASCII, u16::from_str, IpAddr::from_str) are
modelled function-by-function below.
-/

/-- Unicode white-space as tested by Rust char::is_whitespace, used by
split_whitespace and trim. -/
def isRustWhitespace (c : Char) : Bool :=
  let n := c.toNat
  n == 0x09 || n == 0x0A || n == 0x0B || n == 0x0C || n == 0x0D || n == 0x20 ||
  n == 0x85 || n == 0xA0 || n == 0x1680 ||
  n == 0x2000 || n == 0x2001 || n == 0x2002 || n == 0x2003 || n == 0x2004 ||
  n == 0x2005 || n == 0x2006 || n == 0x2007 || n == 0x2008 || n == 0x2009 ||
  n == 0x200A || n == 0x2028 || n == 0x2029 || n == 0x202F || n == 0x205F ||
  n == 0x3000

/-- ASCII fragment of str::to_lowercase; no non-ASCII character lowercases to
any character of the scrutinised prefix "host:", so this is faithful for the
single use in the source. -/
def toLowerAscii (c : Char) : Char :=
  if 65 ≤ c.toNat ∧ c.toNat ≤ 90 then Char.ofNat (c.toNat + 32) else c

def toLowerL (s : List Char) : List Char := s.map toLowerAscii

/-- Model of str::starts_with for a literal pattern: second argument is the
pattern. -/
def startsWithL : List Char → List Char → Bool
  | _, [] => true
  | [], _ :: _ => false
  | c :: s, q :: qs => c == q && startsWithL s qs

/-- Model of str::split with a single-character pattern: n separators yield
n+1 parts, empty parts included. -/
def splitOnChar (sep : Char) : List Char → List (List Char)
  | [] => [[]]
  | c :: rest =>
    if c == sep then [] :: splitOnChar sep rest
    else match splitOnChar sep rest with
      | [] => [[c]]
      | h :: t => (c :: h) :: t

/-- Model of str::split with the two-character pattern CR LF (leftmost-first,
non-overlapping). -/
def splitOnCrlf : List Char → List (List Char)
  | [] => [[]]
  | [c] => [[c]]
  | c1 :: c2 :: rest =>
    if c1 == '\r' && c2 == '\n' then [] :: splitOnCrlf rest
    else match splitOnCrlf (c2 :: rest) with
      | [] => [[c1]]
      | h :: t => (c1 :: h) :: t

/-- Splitting at every white-space character, empty parts included; auxiliary
for split_whitespace. -/
def splitAtWs : List Char → List (List Char)
  | [] => [[]]
  | c :: rest =>
    if isRustWhitespace c then [] :: splitAtWs rest
    else match splitAtWs rest with
      | [] => [[c]]
      | h :: t => (c :: h) :: t

/-- Model of str::split_whitespace: maximal non-white-space runs, no empty
tokens. -/
def splitWhitespace (s : List Char) : List (List Char) :=
  (splitAtWs s).filter (fun part => !part.isEmpty)

/-- Model of str::trim. -/
def trimL (s : List Char) : List Char :=
  (((s.dropWhile isRustWhitespace).reverse).dropWhile isRustWhitespace).reverse

/-- Index of the last occurrence of a character, as str::rfind. -/
def rfindIdx (c : Char) : List Char → Option Nat
  | [] => none
  | x :: xs =>
    match rfindIdx c xs with
    | some i => some (i + 1)
    | none => if x == c then some 0 else none

/-- Position of the first CR LF pair, as buffer.windows(2).position(w == CRLF)
in first_line_len. -/
def findCrlf : List Char → Option Nat
  | [] => none
  | [_] => none
  | c1 :: c2 :: rest =>
    if c1 == '\r' && c2 == '\n' then some 0
    else (findCrlf (c2 :: rest)).map (· + 1)

/-- Source first_line_len: length of the request line including its CR LF, or
0 when the buffer holds no CR LF. -/
def first_line_len (buffer : List Char) : Nat :=
  match findCrlf buffer with
  | some pos => pos + 2
  | none => 0

/-- Digit loop of u16::from_str: checked accumulation, failing on any
non-digit or on exceeding the u16 range. -/
def parseU16Digits : List Char → Nat → Option Nat
  | [], acc => some acc
  | c :: rest, acc =>
    if 48 ≤ c.toNat ∧ c.toNat ≤ 57 then
      let v := acc * 10 + (c.toNat - 48)
      if v > 65535 then none else parseU16Digits rest v
    else none

/-- Model of str::parse::<u16>: optional leading plus sign, then one or more
decimal digits, value at most 65535. -/
def parseU16 (s : List Char) : Option Nat :=
  let digits := match s with
    | '+' :: rest => rest
    | _ => s
  match digits with
  | [] => none
  | _ :: _ => parseU16Digits digits 0

/-- Source is_connect_request. -/
def is_connect_request (buffer : List Char) : Bool :=
  startsWithL buffer ("CONNECT".data)

/-- Predicate of the Host-header search in parse_http_request:
line.to_lowercase().starts_with("host:"). -/
def hostPred (l : List Char) : Bool :=
  startsWithL (toLowerL l) ("host:".data)

/-- Source parse_http_request: tokenize the first line (exactly three tokens),
locate the Host header, take element 1 of its split at every ':', trim, then
split at the last ':' with the port parsed as u16 defaulting to 80. -/
def parse_http_request (buffer : List Char) :
    Option (List Char × List Char × Nat × List Char) :=
  let lines := splitOnCrlf buffer
  match splitWhitespace (lines.headD []) with
  | [method, uri, _version] =>
    match lines.find? hostPred with
    | some hostLine =>
      match (splitOnChar ':' hostLine).get? 1 with
      | some afterColon =>
        let host_header := trimL afterColon
        match rfindIdx ':' host_header with
        | some idx =>
          some (method, host_header.take idx,
                (parseU16 (host_header.drop (idx + 1))).getD 80, uri)
        | none => some (method, host_header, 80, uri)
      | none => none
    | none => none
  | _ => none

/-- Source parse_connect_request: requires the CONNECT prefix, three tokens on
the first line, and an authority that splitting at every ':' cuts into exactly
two parts, the second parsing as u16. -/
def parse_connect_request (buffer : List Char) : Option (List Char × Nat) :=
  if startsWithL buffer ("CONNECT".data) then
    let lines := splitOnCrlf buffer
    match splitWhitespace (lines.headD []) with
    | [_method, authority, _version] =>
      match splitOnChar ':' authority with
      | [host, portPart] => (parseU16 portPart).map (fun port => (host, port))
      | _ => none
    | _ => none
  else none

/-- Request-line rewrite of handle_client (non-CONNECT branch): build
"METHOD PATH HTTP/1.1\r\n" and splice it over the first first_line_len bytes
of the buffer. -/
def rewriteHttpRequest (buffer : List Char) : Option (List Char) :=
  (parse_http_request buffer).map (fun r =>
    (r.1 ++ (' ' :: r.2.2.2) ++ (' ' :: ("HTTP/1.1\r\n".data))) ++
      buffer.drop (first_line_len buffer))

/-!
Model of Rust core::net IP-address textual parsing, as invoked by the source
through host.parse::<std::net::IpAddr>().  State is threaded explicitly: a
reader takes the remaining characters and returns the parsed value with the
rest, or fails; failure never consumes input, matching read_atomically.
-/

/-- Model of char::to_digit. -/
def rustToDigit (radix : Nat) (c : Char) : Option Nat :=
  let n := c.toNat
  let d :=
    if 48 ≤ n ∧ n ≤ 57 then some (n - 48)
    else if 97 ≤ n ∧ n ≤ 122 then some (n - 87)
    else if 65 ≤ n ∧ n ≤ 90 then some (n - 55)
    else none
  match d with
  | some v => if v < radix then some v else none
  | none => none

/-- Digit loop of Parser::read_number: greedy digits with checked
accumulation (cap is the numeric type's maximum) and a running max-digits
check.  Returns the value, the digit count and the rest. -/
def readDigits (radix cap : Nat) (maxDigits : Option Nat) :
    Nat → Nat → List Char → Option (Nat × Nat × List Char)
  | acc, count, [] => some (acc, count, [])
  | acc, count, c :: rest =>
    match rustToDigit radix c with
    | none => some (acc, count, c :: rest)
    | some d =>
      let v := acc * radix + d
      if v > cap then none
      else
        match maxDigits with
        | some m =>
          if count + 1 > m then none
          else readDigits radix cap maxDigits v (count + 1) rest
        | none => readDigits radix cap maxDigits v (count + 1) rest

/-- Parser::read_number: at least one digit, optional leading-zero rejection. -/
def readNumber (radix cap : Nat) (maxDigits : Option Nat)
    (allowZeroPrefix : Bool) (s : List Char) : Option (Nat × List Char) :=
  match readDigits radix cap maxDigits 0 0 s with
  | none => none
  | some (v, count, rest) =>
    if count = 0 then none
    else if allowZeroPrefix = false ∧ s.head? = some '0' ∧ 1 < count then none
    else some (v, rest)

/-- Parser::read_given_char. -/
def expectChar (c : Char) : List Char → Option (List Char)
  | x :: rest => if x == c then some rest else none
  | [] => none

/-- Parser::read_ipv4_addr: four decimal octets (max three digits, no leading
zero, each at most 255) separated by dots. -/
def readIpv4Octets (s : List Char) : Option (List Nat × List Char) := do
  let (o0, s) ← readNumber 10 255 (some 3) false s
  let s ← expectChar '.' s
  let (o1, s) ← readNumber 10 255 (some 3) false s
  let s ← expectChar '.' s
  let (o2, s) ← readNumber 10 255 (some 3) false s
  let s ← expectChar '.' s
  let (o3, s) ← readNumber 10 255 (some 3) false s
  pure ([o0, o1, o2, o3], s)

/-- Parser::read_separator: a separator character is required before every
group except the first. -/
def readSep {α : Type} (sep : Char) (i : Nat)
    (inner : List Char → Option (α × List Char)) (s : List Char) :
    Option (α × List Char) :=
  if i = 0 then inner s
  else
    match s with
    | x :: rest => if x == sep then inner rest else none
    | [] => none

/-- The read_groups helper of Parser::read_ipv6_addr: colon-separated 16-bit
hexadecimal groups, allowing a trailing embedded IPv4 address in the last two
slots.  Arguments: slots remaining, current group index; returns the groups
read, whether an embedded IPv4 ended the run, and the rest. -/
def readGroups : Nat → Nat → List Char → (List Nat × Bool × List Char)
  | 0, _, s => ([], false, s)
  | Nat.succ rem, i, s =>
    let ipv4Try : Option (List Nat × List Char) :=
      if 1 ≤ rem then readSep ':' i readIpv4Octets s else none
    match ipv4Try with
    | some (octets, r) =>
      ([(octets.getD 0 0) * 256 + octets.getD 1 0,
        (octets.getD 2 0) * 256 + octets.getD 3 0], true, r)
    | none =>
      match readSep ':' i (readNumber 16 65535 (some 4) true) s with
      | some (g, r) =>
        let (gs, b, r2) := readGroups rem (i + 1) r
        (g :: gs, b, r2)
      | none => ([], false, s)

/-- Parser::read_ipv6_addr: head groups, optional double colon, tail groups,
zero-filled middle. -/
def readIpv6Groups (s : List Char) : Option (List Nat × List Char) :=
  let (head, headIpv4, r) := readGroups 8 0 s
  if head.length = 8 then some (head, r)
  else if headIpv4 then none
  else
    match r with
    | ':' :: ':' :: r2 =>
      let limit := 8 - (head.length + 1)
      let (tail, _, r3) := readGroups limit 0 r2
      some (head ++ List.replicate (8 - head.length - tail.length) 0 ++ tail, r3)
    | _ => none

/-- Textual IP address: four octets or eight 16-bit groups. -/
inductive RustIpAddr : Type
  | v4 (octets : List Nat)
  | v6 (groups : List Nat)
deriving DecidableEq

/-- Parser::read_ip_addr: IPv4 first, otherwise IPv6. -/
def readIpAddr (s : List Char) : Option (RustIpAddr × List Char) :=
  match readIpv4Octets s with
  | some (o, r) => some (RustIpAddr.v4 o, r)
  | none =>
    match readIpv6Groups s with
    | some (g, r) => some (RustIpAddr.v6 g, r)
    | none => none

/-- IpAddr::from_str: the whole input must be consumed. -/
def parseIpAddr (host : List Char) : Option RustIpAddr :=
  match readIpAddr host with
  | some (a, []) => some a
  | _ => none

/-!
SOCKS5 client of the source (connect_socks5), modelled as pure data: the bytes
written to the upstream stream, and the reply bytes consumed from an explicit
input list.
-/

/-- UTF-8 encoding of one character, as str::as_bytes sees it. -/
def charUtf8 (c : Char) : List Nat :=
  let n := c.toNat
  if n < 0x80 then [n]
  else if n < 0x800 then [0xC0 + n / 64, 0x80 + n % 64]
  else if n < 0x10000 then
    [0xE0 + n / 4096, 0x80 + (n / 64) % 64, 0x80 + n % 64]
  else
    [0xF0 + n / 262144, 0x80 + (n / 4096) % 64, 0x80 + (n / 64) % 64,
     0x80 + n % 64]

/-- UTF-8 bytes of a host string. -/
def utf8Encode (s : List Char) : List Nat := s.flatMap charUtf8

/-- Big-endian bytes of a u16 port, as port.to_be_bytes. -/
def portBeBytes (port : Nat) : List Nat := [port / 256 % 256, port % 256]

/-- The SOCKS5 CONNECT request assembled by connect_socks5: VER CMD RSV, then
the address under its ATYP, then the port.  The domain length byte is the
byte length reduced modulo 256, mirroring the unchecked usize-to-u8 cast. -/
def socks5ConnectRequest (host : List Char) (port : Nat) : List Nat :=
  let request := [5, 1, 0]
  let request := request ++
    (match parseIpAddr host with
     | some (RustIpAddr.v4 octets) => 1 :: octets
     | some (RustIpAddr.v6 groups) =>
       4 :: groups.flatMap (fun g => [g / 256, g % 256])
     | none =>
       let addr_bytes := utf8Encode host
       3 :: (addr_bytes.length % 256) :: addr_bytes)
  request ++ portBeBytes port

/-- Model of AsyncReadExt::read_exact: take exactly n bytes or fail. -/
def readExact (n : Nat) (input : List Nat) : Option (List Nat × List Nat) :=
  if n ≤ input.length then some (input.take n, input.drop n) else none

/-- Bound-address consumption of connect_socks5, keyed on the reply ATYP. -/
def readBndAddr (atyp : Nat) (input : List Nat) : Except String (List Nat) :=
  match atyp with
  | 1 =>
    match readExact 4 input with
    | some (_, r) => Except.ok r
    | none => Except.error "short read"
  | 3 =>
    match readExact 1 input with
    | some (lenB, r) =>
      match readExact (lenB.getD 0 0) r with
      | some (_, r2) => Except.ok r2
      | none => Except.error "short read"
    | none => Except.error "short read"
  | 4 =>
    match readExact 16 input with
    | some (_, r) => Except.ok r
    | none => Except.error "short read"
  | _ => Except.error "Unknown address type"

/-- Source connect_socks5 over an explicit reply stream: send the greeting,
read two reply bytes (which the source never examines), send the CONNECT
request, read the four-byte reply header, fail on a non-zero REP, consume the
bound address and port.  Returns the bytes written and the unread input. -/
def connect_socks5 (host : List Char) (port : Nat) (input : List Nat) :
    Except String (List Nat × List Nat) :=
  match readExact 2 input with
  | none => Except.error "short read"
  | some (_response, input) =>
    let request := socks5ConnectRequest host port
    match readExact 4 input with
    | none => Except.error "short read"
    | some (header, input) =>
      if header.getD 1 0 ≠ 0 then Except.error "SOCKS5 connection failed"
      else
        match readBndAddr (header.getD 3 0) input with
        | Except.error e => Except.error e
        | Except.ok input =>
          match readExact 2 input with
          | none => Except.error "short read"
          | some (_, input) =>
            Except.ok ([5, 1, 0] ++ request, input)

/-- Success path of the CONNECT branch of handle_client: parse the request,
run the SOCKS5 handshake, answer 200.  Returns the bytes written upstream and
the bytes written back to the client; none when any step fails (the failure
responses are outside this value). -/
def handleConnectSuccess (buffer : List Char) (socksInput : List Nat) :
    Option (List Nat × List Nat) :=
  if is_connect_request buffer then
    match parse_connect_request buffer with
    | some (host, port) =>
      match connect_socks5 host port socksInput with
      | Except.ok (written, _) =>
        some (written,
              utf8Encode ("HTTP/1.1 200 Connection Established\r\n\r\n".data))
      | Except.error _ => none
    | none => none
  else none

/-!
Lemmas about the splitting primitives.
-/

theorem splitOnChar_ne_nil (sep : Char) (s : List Char) :
    splitOnChar sep s ≠ [] := by
  induction s with
  | nil => simp [splitOnChar]
  | cons c rest ih =>
    simp only [splitOnChar]
    by_cases h : c == sep
    · simp [h]
    · simp only [h]
      cases hs : splitOnChar sep rest with
      | nil => simp
      | cons a t => simp

theorem splitAtWs_ne_nil (s : List Char) : splitAtWs s ≠ [] := by
  induction s with
  | nil => simp [splitAtWs]
  | cons c rest ih =>
    simp only [splitAtWs]
    by_cases h : isRustWhitespace c
    · simp [h]
    · simp only [h]
      cases hs : splitAtWs rest with
      | nil => simp
      | cons a t => simp

theorem not_mem_of_mem_splitOnChar (sep : Char) (s part : List Char)
    (hp : part ∈ splitOnChar sep s) : sep ∉ part := by
  induction s generalizing part with
  | nil =>
    simp [splitOnChar] at hp
    subst hp; simp
  | cons c rest ih =>
    simp only [splitOnChar] at hp
    by_cases h : c == sep
    · simp only [h, if_pos] at hp
      rcases List.mem_cons.mp hp with h1 | h1
      · subst h1; simp
      · exact ih part h1
    · simp only [h] at hp
      cases hs : splitOnChar sep rest with
      | nil => exact absurd hs (splitOnChar_ne_nil sep rest)
      | cons a t =>
        rw [hs] at hp
        simp only [Bool.not_eq_true] at h
        rcases List.mem_cons.mp hp with h1 | h1
        · subst h1
          intro hmem
          rcases List.mem_cons.mp hmem with h2 | h2
          · exact absurd (beq_iff_eq.mpr h2.symm) (by simp [h])
          · exact ih a (hs ▸ List.mem_cons_self a t) h2
        · exact ih part (hs ▸ List.mem_cons_of_mem a h1)

theorem no_ws_of_mem_splitAtWs (s part : List Char)
    (hp : part ∈ splitAtWs s) : ∀ c ∈ part, isRustWhitespace c = false := by
  induction s generalizing part with
  | nil =>
    simp [splitAtWs] at hp
    subst hp; simp
  | cons c rest ih =>
    simp only [splitAtWs] at hp
    by_cases h : isRustWhitespace c
    · simp only [h, if_pos] at hp
      rcases List.mem_cons.mp hp with h1 | h1
      · subst h1; simp
      · exact ih part h1
    · simp only [h] at hp
      cases hs : splitAtWs rest with
      | nil => exact absurd hs (splitAtWs_ne_nil rest)
      | cons a t =>
        rw [hs] at hp
        rcases List.mem_cons.mp hp with h1 | h1
        · subst h1
          intro x hx
          rcases List.mem_cons.mp hx with h2 | h2
          · subst h2; simpa using h
          · exact ih a (hs ▸ List.mem_cons_self a t) x h2
        · exact ih part (hs ▸ List.mem_cons_of_mem a h1)

theorem mem_splitWhitespace (s part : List Char)
    (hp : part ∈ splitWhitespace s) :
    part ≠ [] ∧ ∀ c ∈ part, isRustWhitespace c = false := by
  simp only [splitWhitespace, List.mem_filter] at hp
  refine ⟨?_, no_ws_of_mem_splitAtWs s part hp.1⟩
  have := hp.2
  simpa [List.isEmpty_iff] using this

theorem mem_of_mem_trimL (s : List Char) (c : Char) (h : c ∈ trimL s) :
    c ∈ s := by
  simp only [trimL, List.mem_reverse] at h
  have h1 := List.dropWhile_sublist (l := (s.dropWhile isRustWhitespace).reverse)
    (p := isRustWhitespace)
  have h2 : c ∈ (s.dropWhile isRustWhitespace).reverse := h1.subset h
  rw [List.mem_reverse] at h2
  exact (List.dropWhile_sublist (l := s) (p := isRustWhitespace)).subset h2

theorem rfindIdx_eq_none (c : Char) (s : List Char) (h : c ∉ s) :
    rfindIdx c s = none := by
  induction s with
  | nil => simp [rfindIdx]
  | cons x xs ih =>
    simp only [List.mem_cons, not_or] at h
    simp only [rfindIdx, ih h.2]
    have : (x == c) = false := by
      simp only [beq_eq_false_iff_ne, ne_eq]
      exact fun hx => h.1 (hx ▸ rfl)
    simp [this]

theorem startsWithL_append (a b p : List Char) (h : startsWithL a p = true) :
    startsWithL (a ++ b) p = true := by
  induction p generalizing a with
  | nil => simp [startsWithL]
  | cons q qs ih =>
    cases a with
    | nil => simp [startsWithL] at h
    | cons x xs =>
      simp only [startsWithL, Bool.and_eq_true] at h
      simp only [List.cons_append, startsWithL, Bool.and_eq_true]
      exact ⟨h.1, ih xs h.2⟩

theorem toLowerL_append (a b : List Char) :
    toLowerL (a ++ b) = toLowerL a ++ toLowerL b := by
  simp [toLowerL]

theorem char_toNat_ofNat_valid {n : Nat} (h : n.isValidChar) :
    (Char.ofNat n).toNat = n := by
  simp only [Char.ofNat, dif_pos h, Char.ofNatAux, Char.toNat, UInt32.toNat]
  simp

theorem toLowerAscii_of_ws (c : Char) (h : isRustWhitespace c = true) :
    toLowerAscii c = c := by
  unfold toLowerAscii
  rw [if_neg]
  simp only [isRustWhitespace, Bool.or_eq_true, beq_iff_eq] at h
  omega

theorem toLowerAscii_eq_colon (c : Char) (h : toLowerAscii c = ':') : c = ':' := by
  unfold toLowerAscii at h
  by_cases hc : 65 ≤ c.toNat ∧ c.toNat ≤ 90
  · rw [if_pos hc] at h
    have hv : (c.toNat + 32).isValidChar := Or.inl (by omega)
    have h2 := char_toNat_ofNat_valid hv
    rw [h] at h2
    have h3 : (58 : Nat) = c.toNat + 32 := h2
    omega
  · rwa [if_neg hc] at h

/-- Recursion principle matching the two-character lookahead of splitOnCrlf
and findCrlf. -/
theorem twoStepListInduction {P : List Char → Prop} (h0 : P [])
    (h1 : ∀ c, P [c])
    (h2 : ∀ c1 c2 rest, P rest → P (c2 :: rest) → P (c1 :: c2 :: rest)) :
    ∀ s, P s
  | [] => h0
  | [c] => h1 c
  | c1 :: c2 :: rest =>
    h2 c1 c2 rest (twoStepListInduction h0 h1 h2 rest)
      (twoStepListInduction h0 h1 h2 (c2 :: rest))

theorem splitAtWs_append_token (a : List Char)
    (ha : ∀ c ∈ a, isRustWhitespace c = false) (s : List Char) :
    splitAtWs (a ++ ' ' :: s) = a :: splitAtWs s := by
  induction a with
  | nil => simp [splitAtWs, show isRustWhitespace ' ' = true from rfl]
  | cons c a ih =>
    have hc : isRustWhitespace c = false := ha c (List.mem_cons_self c a)
    have ha2 : ∀ x ∈ a, isRustWhitespace x = false :=
      fun x hx => ha x (List.mem_cons_of_mem c hx)
    simp only [List.cons_append, splitAtWs, hc, Bool.false_eq_true, if_false,
      List.append_eq]
    rw [ih ha2]

theorem splitAtWs_singleton : ∀ (v : List Char), v ≠ [] →
    (∀ c ∈ v, isRustWhitespace c = false) → splitAtWs v = [v] := by
  intro v
  induction v with
  | nil => intro h _; exact absurd rfl h
  | cons c rest ih =>
    intro _ hvw
    have hc : isRustWhitespace c = false := hvw c (List.mem_cons_self c rest)
    by_cases hre : rest = []
    · subst hre; simp [splitAtWs, hc]
    · have hw : ∀ x ∈ rest, isRustWhitespace x = false :=
        fun x hx => hvw x (List.mem_cons_of_mem c hx)
      simp only [splitAtWs, hc, Bool.false_eq_true, if_false, ih hre hw]

theorem splitWhitespace_three_tokens (m u v : List Char)
    (hm : m ≠ []) (hmw : ∀ c ∈ m, isRustWhitespace c = false)
    (hu : u ≠ []) (huw : ∀ c ∈ u, isRustWhitespace c = false)
    (hv : v ≠ []) (hvw : ∀ c ∈ v, isRustWhitespace c = false) :
    splitWhitespace (m ++ ' ' :: (u ++ ' ' :: v)) = [m, u, v] := by
  have hs : splitAtWs (m ++ ' ' :: (u ++ ' ' :: v)) = m :: u :: [v] := by
    rw [splitAtWs_append_token m hmw, splitAtWs_append_token u huw,
        splitAtWs_singleton v hv hvw]
  rw [splitWhitespace, hs]
  simp [List.filter_cons, List.isEmpty_iff, hm, hu, hv]

theorem splitOnCrlf_append (a : List Char) (ha : '\r' ∉ a) (s : List Char) :
    splitOnCrlf (a ++ '\r' :: '\n' :: s) = a :: splitOnCrlf s := by
  induction a with
  | nil =>
    simp only [List.nil_append, splitOnCrlf,
      show ((('\r' : Char) == '\r') && (('\n' : Char) == '\n')) = true from rfl,
      if_true]
  | cons c a ih =>
    have hc : (c == '\r') = false :=
      beq_eq_false_iff_ne.mpr (fun h => ha (h ▸ List.mem_cons_self c a))
    have ha2 : '\r' ∉ a := fun h => ha (List.mem_cons_of_mem c h)
    cases a with
    | nil =>
      simp only [List.nil_append, List.cons_append, splitOnCrlf, hc,
        show (('\r' : Char) == '\n') = false from rfl, Bool.and_false,
        Bool.false_and, Bool.false_eq_true, if_false,
        show ((('\r' : Char) == '\r') && (('\n' : Char) == '\n')) = true from
          rfl, if_true]
    | cons d a2 =>
      simp only [List.cons_append, splitOnCrlf, hc, Bool.false_and,
        Bool.false_eq_true, if_false, List.append_eq]
      rw [show d :: (a2 ++ '\r' :: '\n' :: s) =
        (d :: a2) ++ '\r' :: '\n' :: s from rfl, ih ha2]

theorem findCrlf_append (a : List Char) (ha : '\r' ∉ a) (s : List Char) :
    findCrlf (a ++ '\r' :: '\n' :: s) = some a.length := by
  induction a with
  | nil =>
    simp only [List.nil_append, findCrlf,
      show ((('\r' : Char) == '\r') && (('\n' : Char) == '\n')) = true from rfl,
      if_true, List.length_nil]
  | cons c a ih =>
    have hc : (c == '\r') = false :=
      beq_eq_false_iff_ne.mpr (fun h => ha (h ▸ List.mem_cons_self c a))
    have ha2 : '\r' ∉ a := fun h => ha (List.mem_cons_of_mem c h)
    cases a with
    | nil =>
      simp only [List.nil_append, List.cons_append, findCrlf, hc,
        Bool.false_and, Bool.false_eq_true, if_false,
        show ((('\r' : Char) == '\r') && (('\n' : Char) == '\n')) = true from
          rfl, if_true, List.length_cons, List.length_nil]
      rfl
    | cons d a2 =>
      simp only [List.cons_append, findCrlf, hc, Bool.false_and,
        Bool.false_eq_true, if_false, List.append_eq]
      rw [show d :: (a2 ++ '\r' :: '\n' :: s) =
        (d :: a2) ++ '\r' :: '\n' :: s from rfl, ih ha2]
      simp

theorem splitOnCrlf_of_findCrlf_none :
    ∀ s : List Char, findCrlf s = none → splitOnCrlf s = [s] := by
  apply twoStepListInduction
  · intro _; rfl
  · intro c _; rfl
  · intro c1 c2 rest _ ih2 h
    simp only [findCrlf] at h
    by_cases hcond : ((c1 == '\r') && (c2 == '\n')) = true
    · rw [if_pos hcond] at h; exact absurd h (by simp)
    · rw [if_neg hcond] at h
      have h2 : findCrlf (c2 :: rest) = none := by
        cases hfc : findCrlf (c2 :: rest) with
        | none => rfl
        | some k => rw [hfc] at h; simp at h
      simp only [splitOnCrlf, hcond, if_false, Bool.false_eq_true,
        ih2 h2]

theorem splitOnCrlf_of_findCrlf_some :
    ∀ s : List Char, ∀ k, findCrlf s = some k →
      splitOnCrlf s = s.take k :: splitOnCrlf (s.drop (k + 2)) := by
  apply twoStepListInduction
  · intro k h; exact absurd h (by simp [findCrlf])
  · intro c k h; exact absurd h (by simp [findCrlf])
  · intro c1 c2 rest _ ih2 k h
    simp only [findCrlf] at h
    by_cases hcond : ((c1 == '\r') && (c2 == '\n')) = true
    · rw [if_pos hcond] at h
      have hk : k = 0 := by
        have := Option.some.inj h; omega
      subst hk
      simp only [splitOnCrlf, hcond, if_true, List.take_zero,
        List.drop_succ_cons, List.drop_zero]
    · rw [if_neg hcond] at h
      cases hfc : findCrlf (c2 :: rest) with
      | none => rw [hfc] at h; simp at h
      | some k2 =>
        rw [hfc] at h
        have h2 : some (k2 + 1) = some k := h
        have hk : k = k2 + 1 := (Option.some.inj h2).symm
        subst hk
        have hrec := ih2 k2 hfc
        simp only [splitOnCrlf, hcond, if_false, Bool.false_eq_true, hrec,
          List.take_succ_cons, List.drop_succ_cons]

theorem startsWithL_nil (s : List Char) : startsWithL s [] = true := by
  cases s <;> rfl

theorem splitAtWs_head_startsWith :
    ∀ (p l : List Char), (∀ c ∈ p, isRustWhitespace c = false) →
      startsWithL (toLowerL l) p = true →
      ∃ h t, splitAtWs l = h :: t ∧ startsWithL (toLowerL h) p = true := by
  intro p
  induction p with
  | nil =>
    intro l _ _
    cases hs : splitAtWs l with
    | nil => exact absurd hs (splitAtWs_ne_nil l)
    | cons h t => exact ⟨h, t, rfl, startsWithL_nil _⟩
  | cons q qs ih =>
    intro l hp h
    cases l with
    | nil => simp [toLowerL, startsWithL] at h
    | cons x l2 =>
      simp only [toLowerL, List.map_cons, startsWithL, Bool.and_eq_true,
        beq_iff_eq] at h
      obtain ⟨hq, hrest⟩ := h
      have hxw : isRustWhitespace x = false := by
        by_contra hxw
        have hx : isRustWhitespace x = true := by
          cases hxx : isRustWhitespace x with
          | false => exact absurd hxx hxw
          | true => rfl
        have := toLowerAscii_of_ws x hx
        rw [this] at hq
        have := hp q (List.mem_cons_self q qs)
        rw [← hq] at this
        rw [this] at hx
        exact absurd hx (by simp)
      have hqs : ∀ c ∈ qs, isRustWhitespace c = false :=
        fun c hc => hp c (List.mem_cons_of_mem q hc)
      obtain ⟨h2, t2, hs2, hstart2⟩ := ih l2 hqs hrest
      refine ⟨x :: h2, t2, ?_, ?_⟩
      · simp only [splitAtWs, hxw, Bool.false_eq_true, if_false, hs2]
      · simp only [toLowerL, List.map_cons, startsWithL, Bool.and_eq_true,
          beq_iff_eq]
        exact ⟨hq, by simpa [toLowerL] using hstart2⟩

theorem hostPred_of_head_token (l m : List Char) (ts : List (List Char))
    (hl : hostPred l = true) (hm : splitWhitespace l = m :: ts) :
    ∀ r : List Char, hostPred (m ++ r) = true := by
  intro r
  have hpw : ∀ c ∈ ("host:".data), isRustWhitespace c = false := by decide
  obtain ⟨h, t, hs, hstart⟩ :=
    splitAtWs_head_startsWith ("host:".data) l hpw hl
  have hne : h ≠ [] := by
    intro hnil
    subst hnil
    simp [toLowerL, startsWithL, show ("host:".data) = 'h' :: "ost:".data from
      rfl] at hstart
  have hmh : m = h := by
    rw [splitWhitespace, hs] at hm
    simp only [List.filter_cons, Bool.not_eq_eq_eq_not, Bool.not_true,
      List.isEmpty_iff] at hm
    rw [if_pos (by simpa [List.isEmpty_iff] using hne)] at hm
    exact (List.cons.injEq _ _ _ _ ▸ hm).1.symm
  subst hmh
  unfold hostPred
  rw [toLowerL_append]
  exact startsWithL_append _ _ _ hstart

theorem hostPred_colon_mem (l : List Char) (h : hostPred l = true) :
    ':' ∈ l := by
  unfold hostPred at h
  rw [show ("host:".data) = ['h', 'o', 's', 't', ':'] from rfl] at h
  rcases l with _ | ⟨c1, _ | ⟨c2, _ | ⟨c3, _ | ⟨c4, _ | ⟨c5, r⟩⟩⟩⟩⟩ <;>
    simp [toLowerL, startsWithL, startsWithL_nil] at h
  obtain ⟨_, _, _, _, h5⟩ := h
  have hc5 : c5 = ':' := toLowerAscii_eq_colon c5 h5
  subst hc5
  simp

theorem splitOnChar_two_parts (l : List Char) (h : ':' ∈ l) :
    ∃ a b t, splitOnChar ':' l = a :: b :: t := by
  induction l with
  | nil => simp at h
  | cons x xs ih =>
    by_cases hx : (x == ':') = true
    · cases hs : splitOnChar ':' xs with
      | nil => exact absurd hs (splitOnChar_ne_nil ':' xs)
      | cons h2 t2 =>
        exact ⟨[], h2, t2, by simp only [splitOnChar, hx, if_true, hs]⟩
    · have hxs : ':' ∈ xs := by
        rcases List.mem_cons.mp h with h1 | h1
        · exact absurd (beq_iff_eq.mpr h1.symm) (by simpa using hx)
        · exact h1
      obtain ⟨a, b, t, hs⟩ := ih hxs
      exact ⟨x :: a, b, t, by simp only [splitOnChar, hx, Bool.false_eq_true,
        if_false, hs]⟩

/-!
Inversion facts about the parsers.
-/

theorem parse_http_request_inv (buffer m hh u : List Char) (p : Nat)
    (hp : parse_http_request buffer = some (m, hh, p, u)) :
    ∃ v hostLine,
      splitWhitespace ((splitOnCrlf buffer).headD []) = [m, u, v] ∧
      (splitOnCrlf buffer).find? hostPred = some hostLine := by
  simp only [parse_http_request] at hp
  split at hp
  · rename_i method uri version htok
    split at hp
    · rename_i hostLine hfind
      split at hp
      · rename_i afterColon hget
        split at hp
        · rename_i idx hidx
          simp only [Option.some.injEq, Prod.mk.injEq] at hp
          exact ⟨version, hostLine, by rw [htok, hp.1, hp.2.2.2], hfind⟩
        · simp only [Option.some.injEq, Prod.mk.injEq] at hp
          exact ⟨version, hostLine, by rw [htok, hp.1, hp.2.2.2], hfind⟩
      · exact Option.noConfusion hp
    · exact Option.noConfusion hp
  · exact Option.noConfusion hp

/-- Elements produced by splitting at a separator never hold the separator,
so the rfind-based port split of parse_http_request can never fire: every
port it returns is the literal default 80. -/
theorem parse_http_request_port_eq_80 (buffer m hh u : List Char) (p : Nat)
    (hp : parse_http_request buffer = some (m, hh, p, u)) : p = 80 := by
  simp only [parse_http_request] at hp
  split at hp
  · rename_i method uri version htok
    split at hp
    · rename_i hostLine hfind
      split at hp
      · rename_i afterColon hget
        have hnc : ':' ∉ trimL afterColon := by
          intro hmem
          have h1 : ':' ∈ afterColon := mem_of_mem_trimL afterColon ':' hmem
          have h2 : afterColon ∈ splitOnChar ':' hostLine := List.get?_mem hget
          exact not_mem_of_mem_splitOnChar ':' hostLine afterColon h2 h1
        have hr : rfindIdx ':' (trimL afterColon) = none :=
          rfindIdx_eq_none _ _ hnc
        split at hp
        · rename_i idx hidx
          rw [hr] at hidx
          exact Option.noConfusion hidx
        · simp only [Option.some.injEq, Prod.mk.injEq] at hp
          exact hp.2.2.1.symm
      · exact Option.noConfusion hp
    · exact Option.noConfusion hp
  · exact Option.noConfusion hp

/-- The authority token (second whitespace token of the first line) used by
parse_connect_request. -/
def connectAuthority (buffer : List Char) : Option (List Char) :=
  match splitWhitespace ((splitOnCrlf buffer).headD []) with
  | [_method, authority, _version] => some authority
  | _ => none

theorem parse_connect_request_inv (buffer host : List Char) (port : Nat)
    (hp : parse_connect_request buffer = some (host, port)) :
    ∃ auth portPart, connectAuthority buffer = some auth ∧
      splitOnChar ':' auth = [host, portPart] ∧
      parseU16 portPart = some port := by
  simp only [parse_connect_request] at hp
  split at hp
  · split at hp
    · rename_i method authority version htok
      split at hp
      · rename_i host2 portPart hsplit
        rw [Option.map_eq_some'] at hp
        obtain ⟨pv, hpv, hfb⟩ := hp
        simp only [Prod.mk.injEq] at hfb
        refine ⟨authority, portPart, ?_, ?_, ?_⟩
        · simp only [connectAuthority, htok]
        · rw [hsplit, hfb.1]
        · rw [hpv, hfb.2]
      · exact Option.noConfusion hp
    · exact Option.noConfusion hp
  · exact Option.noConfusion hp

/-- Inversion of connect_socks5: whenever the handshake succeeds, the bytes
written upstream are exactly the three greeting bytes followed by the encoded
CONNECT request. -/
theorem connect_socks5_written (host : List Char) (port : Nat)
    (input written rest : List Nat)
    (h : connect_socks5 host port input = Except.ok (written, rest)) :
    written = [5, 1, 0] ++ socks5ConnectRequest host port := by
  simp only [connect_socks5] at h
  split at h
  · exact Except.noConfusion h
  · split at h
    · exact Except.noConfusion h
    · split at h
      · exact Except.noConfusion h
      · split at h
        · exact Except.noConfusion h
        · split at h
          · exact Except.noConfusion h
          · simp only [Except.ok.injEq, Prod.mk.injEq] at h
            exact h.1.symm

/-- C1: the spec says the Host-header authority is everything after the first
colon, so that Host: foo:8081 gives port 8081.  The code instead keeps only
the text between the first and second colon, so the port digits are lost and
the rfind-based split always defaults to port 80.  This theorem evaluates the
embedded parser and rewriter at the failing input: the target is (foo, 80),
not (foo, 8081), while the rewritten first line is as the spec says. -/
theorem c1_host_port_is_dropped :
    parse_http_request ("GET /p HTTP/1.0\r\nHost: foo:8081\r\n\r\n".data) =
      some ("GET".data, "foo".data, 80, "/p".data) ∧
    rewriteHttpRequest ("GET /p HTTP/1.0\r\nHost: foo:8081\r\n\r\n".data) =
      some ("GET /p HTTP/1.1\r\nHost: foo:8081\r\n\r\n".data) := by
  constructor <;> decide

/-- C2 counterexample: the CONNECT parser does not split at the last colon;
it splits at every colon and demands exactly two parts, so the authority
of a bracketed IPv6 literal parses to four parts and the request is refused
(the 400 path), not host [::1] with port 443. -/
theorem c2_bracketed_ipv6_is_rejected :
    parse_connect_request ("CONNECT [::1]:443 HTTP/1.1\r\n\r\n".data) = none ∧
    splitOnChar ':' ("[::1]:443".data) =
      ["[".data, [], "1]".data, "443".data] := by
  constructor <;> decide

/-- C2 amended: every successful CONNECT parse arises from an authority that
splitting at every colon cuts into exactly a host part and a port part (the
host may be empty), with the port part parsing as u16. -/
theorem c2_split_at_every_colon (buffer host : List Char) (port : Nat)
    (hp : parse_connect_request buffer = some (host, port)) :
    ∃ auth portPart, connectAuthority buffer = some auth ∧
      splitOnChar ':' auth = [host, portPart] ∧
      parseU16 portPart = some port :=
  parse_connect_request_inv buffer host port hp

/-- C2 witness: the amended statement at the concrete request CONNECT h:443. -/
theorem c2_split_at_every_colon_witness :
    ∃ auth portPart,
      connectAuthority ("CONNECT h:443 HTTP/1.1\r\n\r\n".data) = some auth ∧
      splitOnChar ':' auth = ["h".data, portPart] ∧
      parseU16 portPart = some 443 :=
  c2_split_at_every_colon ("CONNECT h:443 HTTP/1.1\r\n\r\n".data) ("h".data)
    443 (by decide)

/-- C3: the SOCKS5 CONNECT request is always VER CMD RSV, then ATYP 1 with
the four octets for an IPv4 literal, ATYP 4 with the sixteen group bytes for
an IPv6 literal, or ATYP 3 with a length byte and the UTF-8 name otherwise,
terminated by the port in big-endian. -/
theorem c3_atyp_encoding (host : List Char) (port : Nat)
    (hport : port < 65536) :
    (∀ o, parseIpAddr host = some (RustIpAddr.v4 o) →
      socks5ConnectRequest host port =
        [5, 1, 0, 1] ++ o ++ [port / 256, port % 256]) ∧
    (∀ g, parseIpAddr host = some (RustIpAddr.v6 g) →
      socks5ConnectRequest host port =
        [5, 1, 0, 4] ++ g.flatMap (fun x => [x / 256, x % 256]) ++
          [port / 256, port % 256]) ∧
    (parseIpAddr host = none → (utf8Encode host).length ≤ 255 →
      socks5ConnectRequest host port =
        [5, 1, 0, 3, (utf8Encode host).length] ++ utf8Encode host ++
          [port / 256, port % 256]) := by
  have hpb : portBeBytes port = [port / 256, port % 256] := by
    unfold portBeBytes
    rw [Nat.mod_eq_of_lt (Nat.div_lt_of_lt_mul (by omega))]
  refine ⟨?_, ?_, ?_⟩
  · intro o hip
    simp [socks5ConnectRequest, hip, hpb, List.append_assoc]
  · intro g hip
    simp [socks5ConnectRequest, hip, hpb, List.append_assoc]
  · intro hip hlen
    have hmod : (utf8Encode host).length % 256 = (utf8Encode host).length :=
      Nat.mod_eq_of_lt (by omega)
    simp [socks5ConnectRequest, hip, hpb, hmod, List.append_assoc]

/-- C3 witness: the request for target (example.com, 443) is the literal
byte string 05 01 00 03 0B 65 78 61 6D 70 6C 65 2E 63 6F 6D 01 BB. -/
theorem c3_atyp_encoding_witness :
    socks5ConnectRequest ("example.com".data) 443 =
      [0x05, 0x01, 0x00, 0x03, 0x0B, 0x65, 0x78, 0x61, 0x6D, 0x70, 0x6C,
       0x65, 0x2E, 0x63, 0x6F, 0x6D, 0x01, 0xBB] := by
  have h := (c3_atyp_encoding ("example.com".data) 443 (by omega)).2.2
    (by decide) (by decide)
  exact h.trans (by decide)

/-- C4 counterexample: after the greeting the client reads two reply bytes
but never examines them; with reply FF FF (not 05 00) the handshake still
succeeds and returns the connected stream. -/
theorem c4_bad_greeting_reply_accepted :
    connect_socks5 ("example.com".data) 443
        ([0xFF, 0xFF] ++ [5, 0, 0, 1, 9, 9, 9, 9, 0, 80]) =
      Except.ok ([5, 1, 0, 5, 1, 0, 3, 11, 101, 120, 97, 109, 112, 108, 101,
        46, 99, 111, 109, 1, 187], []) := rfl

/-- C4 amended: the client awaits exactly two greeting-reply bytes and then
proceeds identically whatever their values are; the greeting stage fails only
when fewer than two bytes arrive. -/
theorem c4_greeting_reply_ignored :
    (∀ (host : List Char) (port a b c d : Nat) (rest : List Nat),
      connect_socks5 host port (a :: b :: rest) =
        connect_socks5 host port (c :: d :: rest)) ∧
    (∀ (host : List Char) (port : Nat) (input : List Nat),
      input.length < 2 →
        connect_socks5 host port input = Except.error "short read") := by
  have hre : ∀ (a b : Nat) (rest : List Nat),
      readExact 2 (a :: b :: rest) = some ([a, b], rest) := by
    intro a b rest
    have h2 : 2 ≤ (a :: b :: rest).length := by simp
    rw [readExact, if_pos h2]
    simp
  constructor
  · intro host port a b c d rest
    simp only [connect_socks5, hre]
  · intro host port input hlen
    have h2 : ¬ 2 ≤ input.length := by omega
    rw [connect_socks5, readExact, if_neg h2]

/-- C4 witness: the amended short-read failure at the empty reply stream. -/
theorem c4_greeting_reply_ignored_witness :
    connect_socks5 ("example.com".data) 443 [] = Except.error "short read" :=
  c4_greeting_reply_ignored.2 ("example.com".data) 443 [] (by decide)

/-- C5 counterexample: a 256-byte domain name is not rejected: the CONNECT
request is written with its length byte wrapped to 0 while all 256 name
bytes still follow. -/
theorem c5_long_name_not_rejected :
    connect_socks5 (List.replicate 256 'a') 80
        ([5, 0] ++ [5, 0, 0, 1, 9, 9, 9, 9, 0, 80]) =
      Except.ok
        ([5, 1, 0] ++ ([5, 1, 0, 3, 0] ++ List.replicate 256 97 ++ [0, 80]),
         []) := rfl

/-- C5 amended: for every non-IP-literal host the CONNECT request is sent
with ATYP 3 and a length byte equal to the UTF-8 byte length reduced modulo
256; no length check precedes the send. -/
theorem c5_domain_length_wraps (host : List Char) (port : Nat)
    (hip : parseIpAddr host = none) :
    socks5ConnectRequest host port =
      [5, 1, 0, 3, (utf8Encode host).length % 256] ++ utf8Encode host ++
        portBeBytes port := by
  simp [socks5ConnectRequest, hip, List.append_assoc]

/-- C5 witness: the amended statement at the 256-byte host. -/
theorem c5_domain_length_wraps_witness :
    socks5ConnectRequest (List.replicate 256 'a') 80 =
      [5, 1, 0, 3, (utf8Encode (List.replicate 256 'a')).length % 256] ++
        utf8Encode (List.replicate 256 'a') ++ portBeBytes 80 :=
  c5_domain_length_wraps (List.replicate 256 'a') 80 (by decide)

/-- C6 counterexample: a CONNECT request for port 0 parses successfully and
produces the Target (host, 0), violating the claimed port-positivity
invariant. -/
theorem c6_connect_port_zero_accepted :
    parse_connect_request ("CONNECT host:0 HTTP/1.1\r\n\r\n".data) =
      some ("host".data, 0) := by decide

/-- C6 amended: the CONNECT parser places no lower bound on the port (port 0
passes, as the counterexample shows), while every Target produced by the
absolute/origin-form parser carries the default port 80, which is positive. -/
theorem c6_http_port_always_80 (buffer m hh u : List Char) (p : Nat)
    (hp : parse_http_request buffer = some (m, hh, p, u)) :
    p = 80 ∧ 0 < p := by
  have h80 := parse_http_request_port_eq_80 buffer m hh u p hp
  exact ⟨h80, by omega⟩

/-- C6 witness: the amended statement at a concrete origin-form request. -/
theorem c6_http_port_always_80_witness : (80 : Nat) = 80 ∧ (0 : Nat) < 80 :=
  c6_http_port_always_80 ("GET /p HTTP/1.1\r\nHost: foo\r\n\r\n".data)
    ("GET".data) ("foo".data) ("/p".data) 80 (by decide)

/-- C7: for a parsed request whose buffer holds a CR LF at position k, the
rewritten buffer is exactly METHOD SP URI SP HTTP/1.1 CR LF followed by every
byte after the first CR LF, and the URI is byte-identical to the second
whitespace token of the request line. -/
theorem c7_rewrite_preserves_tail (buffer m hh u : List Char) (p k : Nat)
    (hp : parse_http_request buffer = some (m, hh, p, u))
    (hk : findCrlf buffer = some k) :
    rewriteHttpRequest buffer =
      some ((m ++ (' ' :: u) ++ (' ' :: ("HTTP/1.1\r\n".data))) ++
        buffer.drop (k + 2)) ∧
    (splitWhitespace ((splitOnCrlf buffer).headD [])).get? 1 = some u := by
  have hf : first_line_len buffer = k + 2 := by simp [first_line_len, hk]
  constructor
  · simp [rewriteHttpRequest, hp, hf]
  · obtain ⟨v, hostLine, htok, -⟩ := parse_http_request_inv buffer m hh u p hp
    rw [htok]
    rfl

/-- C7 witness: the statement at an origin-form request with version 1.0. -/
theorem c7_rewrite_preserves_tail_witness :
    rewriteHttpRequest ("GET /p HTTP/1.0\r\nHost: foo\r\n\r\n".data) =
      some (("GET".data ++ (' ' :: "/p".data) ++
        (' ' :: ("HTTP/1.1\r\n".data))) ++
        ("GET /p HTTP/1.0\r\nHost: foo\r\n\r\n".data).drop (15 + 2)) ∧
    (splitWhitespace
      ((splitOnCrlf ("GET /p HTTP/1.0\r\nHost: foo\r\n\r\n".data)).headD
        [])).get? 1 = some ("/p".data) :=
  c7_rewrite_preserves_tail ("GET /p HTTP/1.0\r\nHost: foo\r\n\r\n".data)
    ("GET".data) ("foo".data) ("/p".data) 80 15 (by decide) (by decide)

/-- C9: on the successful CONNECT path the only bytes written upstream are
the SOCKS5 greeting and the encoded CONNECT request (none of the inbound
CONNECT bytes are forwarded), and the only bytes written back to the client
are the 200 Connection Established response. -/
theorem c9_connect_path_writes (buffer : List Char) (input w c : List Nat)
    (h : handleConnectSuccess buffer input = some (w, c)) :
    (∃ host port, parse_connect_request buffer = some (host, port) ∧
      w = [5, 1, 0] ++ socks5ConnectRequest host port) ∧
    c = utf8Encode ("HTTP/1.1 200 Connection Established\r\n\r\n".data) := by
  simp only [handleConnectSuccess] at h
  split at h
  · split at h
    · rename_i host port hparse
      split at h
      · rename_i written rest hconn
        simp only [Option.some.injEq, Prod.mk.injEq] at h
        have hw := connect_socks5_written host port input written rest hconn
        exact ⟨⟨host, port, hparse, by rw [← h.1, hw]⟩, h.2.symm⟩
      · exact Option.noConfusion h
    · exact Option.noConfusion h
  · exact Option.noConfusion h

/-- C9 witness: the statement at the concrete request CONNECT
example.com:443 with a successful SOCKS5 exchange. -/
theorem c9_connect_path_writes_witness :
    (∃ host port,
      parse_connect_request ("CONNECT example.com:443 HTTP/1.1\r\n\r\n".data) =
        some (host, port) ∧
      ([5, 1, 0, 5, 1, 0, 3, 11, 101, 120, 97, 109, 112, 108, 101, 46, 99,
        111, 109, 1, 187] : List Nat) =
        [5, 1, 0] ++ socks5ConnectRequest host port) ∧
    utf8Encode ("HTTP/1.1 200 Connection Established\r\n\r\n".data) =
      utf8Encode ("HTTP/1.1 200 Connection Established\r\n\r\n".data) :=
  c9_connect_path_writes ("CONNECT example.com:443 HTTP/1.1\r\n\r\n".data)
    ([5, 0] ++ [5, 0, 0, 1, 9, 9, 9, 9, 0, 80])
    ([5, 1, 0, 5, 1, 0, 3, 11, 101, 120, 97, 109, 112, 108, 101, 46, 99,
      111, 109, 1, 187])
    (utf8Encode ("HTTP/1.1 200 Connection Established\r\n\r\n".data))
    (by decide)

/-- C10: a buffer with no CR LF has first_line_len 0, so the splice replaces
the empty prefix and the fresh request line is prepended to the whole
unmodified buffer; a CRLF-free single line whose first token begins with
host: and that has three tokens reaches this path. -/
theorem c10_no_crlf_prepends :
    (∀ buffer : List Char,
      findCrlf buffer = none → first_line_len buffer = 0) ∧
    (∀ (buffer m hh u : List Char) (p : Nat),
      parse_http_request buffer = some (m, hh, p, u) →
      findCrlf buffer = none →
      rewriteHttpRequest buffer =
        some ((m ++ (' ' :: u) ++ (' ' :: ("HTTP/1.1\r\n".data))) ++
          buffer)) ∧
    rewriteHttpRequest ("host:example.com /p HTTP/1.0".data) =
      some
        ("host:example.com /p HTTP/1.1\r\nhost:example.com /p HTTP/1.0".data)
    := by
  refine ⟨?_, ?_, by decide⟩
  · intro buffer h
    simp [first_line_len, h]
  · intro buffer m hh u p hp hc
    have h0 : first_line_len buffer = 0 := by simp [first_line_len, hc]
    simp [rewriteHttpRequest, hp, h0]

/-- C10 witness: the prepending statement at the concrete CRLF-free line. -/
theorem c10_no_crlf_prepends_witness :
    rewriteHttpRequest ("host:example.com /p HTTP/1.0".data) =
      some (("host:example.com".data ++ (' ' :: "/p".data) ++
        (' ' :: ("HTTP/1.1\r\n".data))) ++
        ("host:example.com /p HTTP/1.0".data)) :=
  c10_no_crlf_prepends.2.1 ("host:example.com /p HTTP/1.0".data)
    ("host:example.com".data) ("example.com /p HTTP/1.0".data) ("/p".data)
    80 (by decide) (by decide)

/-- Idempotence of the request-line rewrite: any output of the rewrite parses
again with the same method and URI, its fresh first line is replaced by an
identical one, and the remainder is untouched, so a second application is the
identity on it. -/
theorem rewriteHttpRequest_idem (buffer out : List Char)
    (h : rewriteHttpRequest buffer = some out) :
    rewriteHttpRequest out = some out := by
  cases hp : parse_http_request buffer with
  | none => simp [rewriteHttpRequest, hp] at h
  | some r =>
    obtain ⟨m, hh, p, u⟩ := r
    simp only [rewriteHttpRequest, hp, Option.map_some', Option.some.injEq]
      at h
    set rest := buffer.drop (first_line_len buffer) with hrest
    set nfb := m ++ ' ' :: (u ++ ' ' :: ("HTTP/1.1".data)) with hnfb
    have hshape : (m ++ (' ' :: u) ++ (' ' :: ("HTTP/1.1\r\n".data))) ++ rest
        = nfb ++ '\r' :: '\n' :: rest := by
      rw [show ("HTTP/1.1\r\n".data) = "HTTP/1.1".data ++ ['\r', '\n']
        from rfl, hnfb]
      simp [List.append_assoc]
    have hout2 : out = nfb ++ '\r' :: '\n' :: rest := by
      rw [← h, hshape]
    obtain ⟨v, hostLine, htok, hfind⟩ :=
      parse_http_request_inv buffer m hh u p hp
    have hmtok := mem_splitWhitespace _ m
      (by rw [htok]; exact List.mem_cons_self _ _)
    have hutok := mem_splitWhitespace _ u
      (by rw [htok]; exact List.mem_cons_of_mem _ (List.mem_cons_self _ _))
    obtain ⟨hm_ne, hm_ws⟩ := hmtok
    obtain ⟨hu_ne, hu_ws⟩ := hutok
    have hhttp_ne : ("HTTP/1.1".data) ≠ [] := by decide
    have hhttp_ws : ∀ c ∈ ("HTTP/1.1".data), isRustWhitespace c = false := by
      decide
    have hnocr : '\r' ∉ nfb := by
      intro hmem
      rw [hnfb] at hmem
      rcases List.mem_append.mp hmem with hc | hc
      · exact absurd (hm_ws '\r' hc) (by decide)
      · rcases List.mem_cons.mp hc with hc2 | hc2
        · exact absurd hc2 (by decide)
        · rcases List.mem_append.mp hc2 with hc3 | hc3
          · exact absurd (hu_ws '\r' hc3) (by decide)
          · rcases List.mem_cons.mp hc3 with hc4 | hc4
            · exact absurd hc4 (by decide)
            · exact absurd hc4 (by decide)
    have hlines_out : splitOnCrlf out = nfb :: splitOnCrlf rest := by
      rw [hout2]; exact splitOnCrlf_append nfb hnocr rest
    have hfll_out : first_line_len out = nfb.length + 2 := by
      rw [first_line_len, hout2, findCrlf_append nfb hnocr]
    have htok_out : splitWhitespace nfb = [m, u, "HTTP/1.1".data] := by
      rw [hnfb]
      exact splitWhitespace_three_tokens m u _ hm_ne hm_ws hu_ne hu_ws
        hhttp_ne hhttp_ws
    have hhost_ex : ∃ x, x ∈ splitOnCrlf out ∧ hostPred x = true := by
      have hmemline := List.mem_of_find?_eq_some hfind
      have hpredline := List.find?_some hfind
      rw [hlines_out]
      cases hfc : findCrlf buffer with
      | none =>
        have h0 : first_line_len buffer = 0 := by simp [first_line_len, hfc]
        have hrb : rest = buffer := by rw [hrest, h0, List.drop_zero]
        exact ⟨hostLine,
          List.mem_cons_of_mem nfb (by rw [hrb]; exact hmemline), hpredline⟩
      | some k =>
        have hdec := splitOnCrlf_of_findCrlf_some buffer k hfc
        have hk2 : first_line_len buffer = k + 2 := by
          simp [first_line_len, hfc]
        have hrest2 : rest = buffer.drop (k + 2) := by rw [hrest, hk2]
        rw [hdec] at hmemline
        rcases List.mem_cons.mp hmemline with hhead | htail
        · have hfirst : (splitOnCrlf buffer).headD [] = buffer.take k := by
            rw [hdec]; rfl
          have htok2 : splitWhitespace (buffer.take k) = [m, u, v] := by
            rw [← hfirst]; exact htok
          have hp2 : hostPred (buffer.take k) = true := by
            rw [← hhead]; exact hpredline
          have hnfbhost := hostPred_of_head_token (buffer.take k) m [u, v]
            hp2 htok2 (' ' :: (u ++ ' ' :: ("HTTP/1.1".data)))
          exact ⟨nfb, List.mem_cons_self _ _, by rw [hnfb]; exact hnfbhost⟩
        · exact ⟨hostLine,
            List.mem_cons_of_mem nfb (by rw [hrest2]; exact htail), hpredline⟩
    obtain ⟨hl2, hfind2⟩ : ∃ hl2, (splitOnCrlf out).find? hostPred = some hl2
        := by
      have h1 : ((splitOnCrlf out).find? hostPred).isSome :=
        List.find?_isSome.mpr hhost_ex
      exact Option.isSome_iff_exists.mp h1
    have hpred2 : hostPred hl2 = true := List.find?_some hfind2
    obtain ⟨a2, b2, t2, hsplit2⟩ :=
      splitOnChar_two_parts hl2 (hostPred_colon_mem hl2 hpred2)
    have hget2 : (splitOnChar ':' hl2).get? 1 = some b2 := by
      rw [hsplit2]; rfl
    have hfind2b : (nfb :: splitOnCrlf rest).find? hostPred = some hl2 := by
      rw [← hlines_out]; exact hfind2
    have hparse_out : ∃ X Y, parse_http_request out = some (m, X, Y, u) := by
      cases hri : rfindIdx ':' (trimL b2) with
      | some idx =>
        refine ⟨(trimL b2).take idx,
          (parseU16 ((trimL b2).drop (idx + 1))).getD 80, ?_⟩
        simp only [parse_http_request, hlines_out, List.headD_cons, htok_out,
          hfind2b, hget2, hri]
      | none =>
        refine ⟨trimL b2, 80, ?_⟩
        simp only [parse_http_request, hlines_out, List.headD_cons, htok_out,
          hfind2b, hget2, hri]
    obtain ⟨X, Y, hpo⟩ := hparse_out
    have hdrop : out.drop (nfb.length + 2) = rest := by
      rw [hout2, show nfb ++ '\r' :: '\n' :: rest =
        (nfb ++ ['\r', '\n']) ++ rest by simp [List.append_assoc],
        show nfb.length + 2 = (nfb ++ ['\r', '\n']).length by simp]
      exact List.drop_left _ _
    simp only [rewriteHttpRequest, hpo, Option.map_some', Option.some.injEq]
    rw [hfll_out, hdrop, hshape, ← hout2]

/-- C8: the rewrite is idempotent.  An already origin-form request with URI
/p is rewritten to a first line identical to its own except that the version
becomes HTTP/1.1, and applying the rewrite to any rewrite output returns
that output unchanged. -/
theorem c8_rewrite_idempotent :
    (∀ buffer out : List Char, rewriteHttpRequest buffer = some out →
      rewriteHttpRequest out = some out) ∧
    rewriteHttpRequest ("GET /p HTTP/1.0\r\nHost: foo\r\n\r\n".data) =
      some ("GET /p HTTP/1.1\r\nHost: foo\r\n\r\n".data) :=
  ⟨rewriteHttpRequest_idem, by decide⟩

/-- C8 witness: the second application at the concrete rewritten request. -/
theorem c8_rewrite_idempotent_witness :
    rewriteHttpRequest ("GET /p HTTP/1.1\r\nHost: foo\r\n\r\n".data) =
      some ("GET /p HTTP/1.1\r\nHost: foo\r\n\r\n".data) :=
  c8_rewrite_idempotent.1 ("GET /p HTTP/1.0\r\nHost: foo\r\n\r\n".data)
    ("GET /p HTTP/1.1\r\nHost: foo\r\n\r\n".data) (by decide)
